import Mathlib

/-!
Verification of the solver in `src/contests/2110/A/main.cpp`.

The program reads `t` test cases; each test case is a sequence of `int`
values.  Per test case it computes `minEven`, `maxEven`, `minOdd`,
`maxOdd` in one pass (sentinels `INT_MAX` / `INT_MIN`), then for each
parity class whose minimum differs from `INT_MAX` it counts the elements
lying outside that class's `[min, max]` range, and prints the minimum of
`n` and those counts.

Machine `int`s are modelled as `Int`; the only values at which the
31-bit width matters are the sentinels themselves, which we carry
explicitly as `INT_MAX` / `INT_MIN`.  The C++ parity test `x & 1` on a
two's-complement `int` is `1` exactly when `x` is odd, i.e. `x % 2 = 1`
with Lean's `Int.emod`.
-/

namespace Contest2110A

def INT_MAX : Int := 2147483647

def INT_MIN : Int := -2147483648

/-- The C++ test `x & 1`: true exactly on odd `int`s. -/
def isOddInt (x : Int) : Bool := decide (x % 2 = 1)

/-- The four running extrema of `main.cpp` lines 21-22. -/
structure Bounds where
  minEven : Int
  maxEven : Int
  minOdd : Int
  maxOdd : Int
deriving DecidableEq, Repr

/-- Initial values: `minEven=INT_MAX; maxEven=INT_MIN; minOdd=INT_MAX; maxOdd=INT_MIN`. -/
def initBounds : Bounds :=
  { minEven := INT_MAX, maxEven := INT_MIN, minOdd := INT_MAX, maxOdd := INT_MIN }

/-- One iteration of the scan loop (`main.cpp` lines 25-33). -/
def stepBounds (b : Bounds) (x : Int) : Bounds :=
  if isOddInt x then
    { b with minOdd := min b.minOdd x, maxOdd := max b.maxOdd x }
  else
    { b with minEven := min b.minEven x, maxEven := max b.maxEven x }

/-- The whole scan loop over the input vector. -/
def computeBounds (a : List Int) : Bounds := a.foldl stepBounds initBounds

/-- One counting pass (`main.cpp` lines 40-44 and 51-57): the number of
elements `x` with `x < lo || x > hi`, as the `int` value `remove`. -/
def countOutside (a : List Int) (lo hi : Int) : Int :=
  (a.countP fun x => decide (x < lo) || decide (x > hi) : Nat)

/-- The per-test-case computation (`main.cpp` lines 15-60): the printed
answer for one test case, as a function of the input sequence. -/
def solve (a : List Int) : Int :=
  let b := computeBounds a
  let n : Int := a.length
  let ans : Int := n
  let ans : Int :=
    if b.minEven ≠ INT_MAX then min ans (countOutside a b.minEven b.maxEven) else ans
  let ans : Int :=
    if b.minOdd ≠ INT_MAX then min ans (countOutside a b.minOdd b.maxOdd) else ans
  ans

/-- The outer `while (t--)` loop: each iteration reads one test case,
computes with loop-local variables only, and prints one line. -/
def runBatch : List (List Int) → List Int
  | [] => []
  | a :: rest => solve a :: runBatch rest

/-- The elements the scan loop routes to the odd branch. -/
def oddElems (a : List Int) : List Int := a.filter isOddInt

/-- The elements the scan loop routes to the even branch. -/
def evenElems (a : List Int) : List Int := a.filter fun x => !(isOddInt x)

example : solve [1, 3, 5, 2, 4] = 0 := by decide
example : solve [1, 2, 3] = 0 := by decide
example : solve [2, 3, 4] = 0 := by decide
example : solve [2, 4, 6, 8] = 0 := by decide
example : solve [7] = 0 := by decide
example : solve [2147483647] = 1 := by decide
example : solve [] = 0 := by decide

/-! ### Helper lemmas about `foldl min` / `foldl max` -/

theorem foldl_min_le_init (l : List Int) (init : Int) : l.foldl min init ≤ init := by
  induction l generalizing init with
  | nil => exact le_refl _
  | cons y ys ih =>
      exact le_trans (ih (min init y)) (min_le_left _ _)

theorem foldl_min_le_mem (l : List Int) (init x : Int) (hx : x ∈ l) :
    l.foldl min init ≤ x := by
  induction l generalizing init with
  | nil => cases hx
  | cons y ys ih =>
      rcases List.mem_cons.mp hx with h | h
      · subst h
        exact le_trans (foldl_min_le_init ys (min init x)) (min_le_right _ _)
      · exact ih (min init y) h

theorem init_le_foldl_max (l : List Int) (init : Int) : init ≤ l.foldl max init := by
  induction l generalizing init with
  | nil => exact le_refl _
  | cons y ys ih =>
      exact le_trans (le_max_left _ _) (ih (max init y))

theorem mem_le_foldl_max (l : List Int) (init x : Int) (hx : x ∈ l) :
    x ≤ l.foldl max init := by
  induction l generalizing init with
  | nil => cases hx
  | cons y ys ih =>
      rcases List.mem_cons.mp hx with h | h
      · subst h
        exact le_trans (le_max_right _ _) (init_le_foldl_max ys (max init x))
      · exact ih (max init y) h

theorem foldl_min_swap (l : List Int) (c d : Int) :
    l.foldl min (min c d) = min c (l.foldl min d) := by
  induction l generalizing d with
  | nil => rfl
  | cons y ys ih =>
      simp only [List.foldl_cons, min_assoc, ih]

theorem foldl_max_swap (l : List Int) (c d : Int) :
    l.foldl max (max c d) = max c (l.foldl max d) := by
  induction l generalizing d with
  | nil => rfl
  | cons y ys ih =>
      simp only [List.foldl_cons, max_assoc, ih]

theorem foldl_min_eq_min? (l : List Int) (init : Int) :
    l.foldl min init = match l.min? with | none => init | some m => min init m := by
  cases l with
  | nil => rfl
  | cons x xs =>
      show (x :: xs).foldl min init = min init (xs.foldl min x)
      exact foldl_min_swap xs init x

theorem foldl_max_eq_max? (l : List Int) (init : Int) :
    l.foldl max init = match l.max? with | none => init | some m => max init m := by
  cases l with
  | nil => rfl
  | cons x xs =>
      show (x :: xs).foldl max init = max init (xs.foldl max x)
      exact foldl_max_swap xs init x

theorem foldl_min_const (l : List Int) (c : Int) (h : ∀ x ∈ l, x = c) :
    l.foldl min c = c := by
  induction l with
  | nil => rfl
  | cons y ys ih =>
      have hy : y = c := h y (List.mem_cons_self _ _)
      subst hy
      simp only [List.foldl_cons, min_self]
      exact ih fun x hx => h x (List.mem_cons_of_mem _ hx)

/-! ### The scan loop computes the extrema of the two filtered classes -/

theorem foldl_stepBounds_eq (a : List Int) (b : Bounds) :
    a.foldl stepBounds b =
      { minEven := (evenElems a).foldl min b.minEven,
        maxEven := (evenElems a).foldl max b.maxEven,
        minOdd := (oddElems a).foldl min b.minOdd,
        maxOdd := (oddElems a).foldl max b.maxOdd } := by
  induction a generalizing b with
  | nil => rfl
  | cons x xs ih =>
      by_cases hx : isOddInt x
      · simp [List.foldl_cons, ih, stepBounds, hx, oddElems, evenElems, List.filter_cons]
      · have hx' : isOddInt x = false := by simpa using hx
        simp [List.foldl_cons, ih, stepBounds, hx', oddElems, evenElems, List.filter_cons]

theorem computeBounds_eq (a : List Int) :
    computeBounds a =
      { minEven := (evenElems a).foldl min INT_MAX,
        maxEven := (evenElems a).foldl max INT_MIN,
        minOdd := (oddElems a).foldl min INT_MAX,
        maxOdd := (oddElems a).foldl max INT_MIN } :=
  foldl_stepBounds_eq a initBounds

/-! ### Unfolding `solve` and bounds on the counting pass -/

theorem solve_def (a : List Int) :
    solve a =
      (if (computeBounds a).minOdd ≠ INT_MAX then
        min
          (if (computeBounds a).minEven ≠ INT_MAX then
            min (a.length : Int)
              (countOutside a (computeBounds a).minEven (computeBounds a).maxEven)
          else (a.length : Int))
          (countOutside a (computeBounds a).minOdd (computeBounds a).maxOdd)
      else
        (if (computeBounds a).minEven ≠ INT_MAX then
          min (a.length : Int)
            (countOutside a (computeBounds a).minEven (computeBounds a).maxEven)
        else (a.length : Int))) := rfl

theorem countOutside_nonneg (a : List Int) (lo hi : Int) : 0 ≤ countOutside a lo hi :=
  Int.natCast_nonneg _

theorem countOutside_le_length (a : List Int) (lo hi : Int) :
    countOutside a lo hi ≤ (a.length : Int) := by
  unfold countOutside
  exact_mod_cast List.countP_le_length _

theorem countOutside_eq_zero (a : List Int) (lo hi : Int)
    (h : ∀ x ∈ a, lo ≤ x ∧ x ≤ hi) : countOutside a lo hi = 0 := by
  unfold countOutside
  have : a.countP (fun x => decide (x < lo) || decide (x > hi)) = 0 := by
    rw [List.countP_eq_zero]
    intro x hx
    rcases h x hx with ⟨h1, h2⟩
    simp [not_lt.mpr h1, not_lt.mpr h2]
  rw [this]
  rfl

/-! ### Spec-side definitions for claim C1

`claimedCandidate` / `claimedAnswer` transcribe the claim's formula
literally ("the count n minus the number of elements of that parity",
minimised over the non-empty parity classes).  `specCandidate` /
`specCandidates` state the refinement the code actually satisfies: a
class's removal count is the number of elements outside that class's own
`[min, max]` value range. -/

def claimedCandidate (a cls : List Int) : Option Int :=
  if cls = [] then none else some ((a.length : Int) - (cls.length : Int))

def claimedAnswer (a : List Int) : Option Int :=
  ((claimedCandidate a (evenElems a)).toList ++
    (claimedCandidate a (oddElems a)).toList).min?

def specCandidate (a cls : List Int) : Option Int :=
  match cls.min?, cls.max? with
  | some lo, some hi => some (countOutside a lo hi)
  | _, _ => none

def specCandidates (a : List Int) : List Int :=
  (specCandidate a (evenElems a)).toList ++ (specCandidate a (oddElems a)).toList

/-- The even branch of `solve` alone (`main.cpp` lines 35-46 with the odd
branch deleted): what the program computes when the odd class offers no
candidate. -/
def solveEvenBranchOnly (a : List Int) : Int :=
  let b := computeBounds a
  let n : Int := a.length
  if b.minEven ≠ INT_MAX then min n (countOutside a b.minEven b.maxEven) else n

/-! ### Class membership and presence of the guards -/

theorem mem_of_mem_evenElems {a : List Int} {x : Int} (h : x ∈ evenElems a) : x ∈ a :=
  (List.mem_filter.mp h).1

theorem mem_of_mem_oddElems {a : List Int} {x : Int} (h : x ∈ oddElems a) : x ∈ a :=
  (List.mem_filter.mp h).1

theorem classes_cover (a : List Int) (x : Int) (hx : x ∈ a) :
    x ∈ evenElems a ∨ x ∈ oddElems a := by
  by_cases h : isOddInt x
  · exact Or.inr (List.mem_filter.mpr ⟨hx, h⟩)
  · exact Or.inl (List.mem_filter.mpr ⟨hx, by simpa using h⟩)

theorem foldl_min_sentinel_spec (e : Int) (es : List Int) (hub : e < INT_MAX) :
    (e :: es).foldl min INT_MAX = es.foldl min e ∧
      (e :: es).foldl min INT_MAX ≠ INT_MAX := by
  have h1 : (e :: es).foldl min INT_MAX = min INT_MAX (es.foldl min e) :=
    foldl_min_swap es INT_MAX e
  have h2 : es.foldl min e < INT_MAX := lt_of_le_of_lt (foldl_min_le_init es e) hub
  constructor
  · rw [h1]
    exact min_eq_right h2.le
  · rw [h1, min_eq_right h2.le]
    exact ne_of_lt h2

theorem foldl_max_sentinel_spec (e : Int) (es : List Int) (hlb : INT_MIN ≤ e) :
    (e :: es).foldl max INT_MIN = es.foldl max e := by
  have h1 : (e :: es).foldl max INT_MIN = max INT_MIN (es.foldl max e) :=
    foldl_max_swap es INT_MIN e
  have h2 : INT_MIN ≤ es.foldl max e := le_trans hlb (init_le_foldl_max es e)
  rw [h1]
  exact max_eq_right h2

/-- When every element of a list sits between `lo` and `hi`, with `lo`
below some element strictly under `INT_MAX`, the counting pass over the
sentinel-fold extrema of that list finds nothing. -/
theorem solve_of_same_parity (a : List Int) (p : Bool)
    (hp : ∀ x ∈ a, isOddInt x = p)
    (x₀ : Int) (hx₀ : x₀ ∈ a) (hub : x₀ < INT_MAX) : solve a = 0 := by
  have hn : (0 : Int) ≤ (a.length : Int) := Int.natCast_nonneg _
  rw [solve_def]
  cases p with
  | true =>
      have hodds : oddElems a = a := List.filter_eq_self.mpr hp
      have hevens : evenElems a = [] := by
        apply List.filter_eq_nil_iff.mpr
        intro x hx
        simp [hp x hx]
      have hminE : (computeBounds a).minEven = INT_MAX := by
        rw [computeBounds_eq, hevens]
        rfl
      have hminO : (computeBounds a).minOdd = a.foldl min INT_MAX := by
        rw [computeBounds_eq, hodds]
      have hmaxO : (computeBounds a).maxOdd = a.foldl max INT_MIN := by
        rw [computeBounds_eq, hodds]
      have hguard : (computeBounds a).minOdd ≠ INT_MAX := by
        rw [hminO]
        exact ne_of_lt (lt_of_le_of_lt (foldl_min_le_mem a INT_MAX x₀ hx₀) hub)
      have hcount : countOutside a (computeBounds a).minOdd (computeBounds a).maxOdd = 0 := by
        apply countOutside_eq_zero
        intro y hy
        rw [hminO, hmaxO]
        exact ⟨foldl_min_le_mem a INT_MAX y hy, mem_le_foldl_max a INT_MIN y hy⟩
      rw [if_pos hguard, if_neg (by simp [hminE]), hcount]
      exact min_eq_right hn
  | false =>
      have hevens : evenElems a = a := by
        apply List.filter_eq_self.mpr
        intro x hx
        simp [hp x hx]
      have hodds : oddElems a = [] := by
        apply List.filter_eq_nil_iff.mpr
        intro x hx
        simp [hp x hx]
      have hminO : (computeBounds a).minOdd = INT_MAX := by
        rw [computeBounds_eq, hodds]
        rfl
      have hminE : (computeBounds a).minEven = a.foldl min INT_MAX := by
        rw [computeBounds_eq, hevens]
      have hmaxE : (computeBounds a).maxEven = a.foldl max INT_MIN := by
        rw [computeBounds_eq, hevens]
      have hguard : (computeBounds a).minEven ≠ INT_MAX := by
        rw [hminE]
        exact ne_of_lt (lt_of_le_of_lt (foldl_min_le_mem a INT_MAX x₀ hx₀) hub)
      have hcount : countOutside a (computeBounds a).minEven (computeBounds a).maxEven = 0 := by
        apply countOutside_eq_zero
        intro y hy
        rw [hminE, hmaxE]
        exact ⟨foldl_min_le_mem a INT_MAX y hy, mem_le_foldl_max a INT_MIN y hy⟩
      rw [if_neg (by simp [hminO]), if_pos hguard, hcount]
      exact min_eq_right hn

/-! ### Claims -/

/-- Claim C1 (counterexample): the claim's formula — minimum over non-empty
parity classes of `n` minus the class size — gives 1 on `[2,3,4]`, but the
program prints 0 there: the odd element 3 lies inside the even class's
value range `[2,4]`, so the even pass removes nothing. -/
theorem C1_counterexample : claimedAnswer [2, 3, 4] = some 1 ∧ solve [2, 3, 4] = 0 := by
  decide

/-- Claim C2 (counterexample): on `[1,3,5,2,4]` the program does not print 2:
the odd class's value range `[1,5]` contains every element, so the odd pass
counts 0 removals and the minimum is 0, not 2. -/
theorem C2_counterexample : solve [1, 3, 5, 2, 4] ≠ 2 := by decide

/-- Claim C2 (amended): on `[1,3,5,2,4]` the program prints 0 — the even
candidate is 2 (elements 1 and 5 lie outside `[2,4]`), the odd candidate is
0 (every element lies inside `[1,5]`), and the minimum is 0. -/
theorem C2_actual_output : solve [1, 3, 5, 2, 4] = 0 := by decide

/-- Claim C3 (counterexample): on `[1,2,3]` the program does not print 1:
the odd class's value range `[1,3]` contains the even element 2, so the odd
pass counts 0 removals and the minimum is 0. -/
theorem C3_counterexample : solve [1, 2, 3] ≠ 1 := by decide

/-- Claim C3 (amended): on `[1,2,3]` the program prints 0 — the even
candidate is 2, the odd candidate is 0, and the minimum is 0. -/
theorem C3_actual_output : solve [1, 2, 3] = 0 := by decide

/-- Claim C4 (counterexample): for the single-element sequence
`[2147483647]` (`INT_MAX`, an odd value) the program prints 1, not 0: the
scan leaves `minOdd = INT_MAX`, so the sentinel guard treats the odd class
as absent and the answer stays at its initial value `n = 1`. -/
theorem C4_counterexample : solve [2147483647] ≠ 0 ∧ solve [2147483647] = 1 := by decide

/-- Claim C4 (amended): for every single `int` value other than `INT_MAX`
(i.e. `v < INT_MAX`) the program prints 0; for the single value `INT_MAX`
it prints 1. -/
theorem C4_single_element (v : Int) (h : v < INT_MAX) :
    solve [v] = 0 ∧ solve [2147483647] = 1 := by
  constructor
  · apply solve_of_same_parity [v] (isOddInt v) _ v _ h
    · intro x hx
      have hxv : x = v := by simpa using hx
      rw [hxv]
    · simp
  · decide

/-- Claim C4 (witness): the amended claim at the concrete value 5. -/
theorem C4_witness : solve [5] = 0 ∧ solve [2147483647] = 1 :=
  C4_single_element 5 (by decide)

/-- Claim C5 (counterexample): `[2147483647, 2147483647]` is a non-empty
all-odd sequence, yet the program prints 2, not 0: `minOdd` ends at
`INT_MAX`, so the sentinel guard skips the odd class and the answer stays
at `n = 2`. -/
theorem C5_counterexample :
    isOddInt 2147483647 = true ∧ solve [2147483647, 2147483647] = 2 := by decide

/-- Claim C5 (amended): for every non-empty sequence whose elements all
have the same parity, the program prints 0 — unless every element equals
`INT_MAX` (the hypothesis asks for one element below `INT_MAX`, which in
the `int` domain excludes exactly the all-`INT_MAX` sequences). -/
theorem C5_same_parity (a : List Int) (p : Bool) (_hne : a ≠ [])
    (hp : ∀ x ∈ a, isOddInt x = p) (hex : ∃ x ∈ a, x < INT_MAX) :
    solve a = 0 := by
  obtain ⟨x₀, hx₀, hub⟩ := hex
  exact solve_of_same_parity a p hp x₀ hx₀ hub

/-- Claim C5 (witness): the amended claim at the all-odd sequence `[1,3]`. -/
theorem C5_witness : solve [1, 3] = 0 :=
  C5_same_parity [1, 3] true (by decide) (by decide) ⟨1, by decide, by decide⟩

/-- Claim C6: every element lies inside the `[min, max]` interval the scan
computed for its own parity class, so the counting pass's predicate
`x < lo || x > hi` is false on every same-parity element — the pass never
counts an element of its own class. -/
theorem C6_own_class_within_bounds (a : List Int) (x : Int) (hx : x ∈ a) :
    (isOddInt x = true →
      (computeBounds a).minOdd ≤ x ∧ x ≤ (computeBounds a).maxOdd ∧
      (decide (x < (computeBounds a).minOdd) ||
        decide (x > (computeBounds a).maxOdd)) = false) ∧
    (isOddInt x = false →
      (computeBounds a).minEven ≤ x ∧ x ≤ (computeBounds a).maxEven ∧
      (decide (x < (computeBounds a).minEven) ||
        decide (x > (computeBounds a).maxEven)) = false) := by
  rw [computeBounds_eq]
  constructor
  · intro h
    have hmem : x ∈ oddElems a := List.mem_filter.mpr ⟨hx, h⟩
    have h1 := foldl_min_le_mem (oddElems a) INT_MAX x hmem
    have h2 := mem_le_foldl_max (oddElems a) INT_MIN x hmem
    refine ⟨h1, h2, ?_⟩
    simp only [Bool.or_eq_false_iff, decide_eq_false_iff_not, not_lt, gt_iff_lt]
    exact ⟨h1, h2⟩
  · intro h
    have hmem : x ∈ evenElems a := List.mem_filter.mpr ⟨hx, by simp [h]⟩
    have h1 := foldl_min_le_mem (evenElems a) INT_MAX x hmem
    have h2 := mem_le_foldl_max (evenElems a) INT_MIN x hmem
    refine ⟨h1, h2, ?_⟩
    simp only [Bool.or_eq_false_iff, decide_eq_false_iff_not, not_lt, gt_iff_lt]
    exact ⟨h1, h2⟩

/-- Claim C6 (witness): the invariant at the sequence `[1,2]` and its
element 1. -/
theorem C6_witness :
    (isOddInt 1 = true →
      (computeBounds [1, 2]).minOdd ≤ 1 ∧ (1 : Int) ≤ (computeBounds [1, 2]).maxOdd ∧
      (decide ((1 : Int) < (computeBounds [1, 2]).minOdd) ||
        decide ((1 : Int) > (computeBounds [1, 2]).maxOdd)) = false) ∧
    (isOddInt 1 = false →
      (computeBounds [1, 2]).minEven ≤ 1 ∧ (1 : Int) ≤ (computeBounds [1, 2]).maxEven ∧
      (decide ((1 : Int) < (computeBounds [1, 2]).minEven) ||
        decide ((1 : Int) > (computeBounds [1, 2]).maxEven)) = false) :=
  C6_own_class_within_bounds [1, 2] 1 (by decide)

theorem runBatch_getElem (tcs : List (List Int)) (i : Nat) :
    (runBatch tcs)[i]? = (tcs[i]?).map solve := by
  induction tcs generalizing i with
  | nil => simp [runBatch]
  | cons a rest ih =>
      cases i with
      | zero => simp [runBatch]
      | succ j => simpa [runBatch] using ih j

/-- Claim C7: the batch loop is deterministic and test cases are
independent — whenever two batches agree on their `i`-th test case, the
`i`-th printed answers agree, and each printed answer is a function of its
own test case alone (`solve`), with no state carried across iterations. -/
theorem C7_deterministic_independent (tcs tcs' : List (List Int)) (i : Nat)
    (h : tcs[i]? = tcs'[i]?) :
    (runBatch tcs)[i]? = (runBatch tcs')[i]? ∧
      (runBatch tcs)[i]? = (tcs[i]?).map solve := by
  constructor
  · rw [runBatch_getElem, runBatch_getElem, h]
  · exact runBatch_getElem tcs i

/-- Claim C7 (witness): batches `[[1,2,3]]` and `[[4],[1,2,3]]` do not
agree at index 0, but `[[1,2,3],[9]]` and `[[1,2,3]]` do, and their first
answers coincide. -/
theorem C7_witness :
    (runBatch [[1, 2, 3], [9]])[0]? = (runBatch [[1, 2, 3]])[0]? ∧
      (runBatch [[1, 2, 3], [9]])[0]? =
        (([[1, 2, 3], [9]] : List (List Int))[0]?).map solve :=
  C7_deterministic_independent [[1, 2, 3], [9]] [[1, 2, 3]] 0 (by decide)

/-- Claim C8: on an empty test case both class minima stay at the sentinel
`INT_MAX`, both guards fail, and the printed answer is the initial value
`n = 0`; the computation is well-defined. -/
theorem C8_empty_sequence :
    solve [] = 0 ∧ (computeBounds []).minEven = INT_MAX ∧
      (computeBounds []).minOdd = INT_MAX := by decide

/-- Claim C9: the printed answer always lies between 0 and `n`: it starts
at `n`, every candidate count is between 0 and `n`, and `min` only ever
lowers it. -/
theorem C9_answer_bounds (a : List Int) :
    0 ≤ solve a ∧ solve a ≤ (a.length : Int) := by
  have h0E := countOutside_nonneg a (computeBounds a).minEven (computeBounds a).maxEven
  have h0O := countOutside_nonneg a (computeBounds a).minOdd (computeBounds a).maxOdd
  have hn : (0 : Int) ≤ (a.length : Int) := Int.natCast_nonneg _
  rw [solve_def]
  by_cases hO : (computeBounds a).minOdd ≠ INT_MAX
  · rw [if_pos hO]
    by_cases hE : (computeBounds a).minEven ≠ INT_MAX
    · rw [if_pos hE]
      exact ⟨le_min (le_min hn h0E) h0O,
        le_trans (min_le_left _ _) (min_le_left _ _)⟩
    · rw [if_neg hE]
      exact ⟨le_min hn h0O, min_le_left _ _⟩
  · rw [if_neg hO]
    by_cases hE : (computeBounds a).minEven ≠ INT_MAX
    · rw [if_pos hE]
      exact ⟨le_min hn h0E, min_le_left _ _⟩
    · rw [if_neg hE]
      exact ⟨hn, le_refl _⟩

/-- Claim C10: the code treats a parity class as present exactly when its
running minimum differs from the sentinel `INT_MAX`; hence if every odd
element of the input equals `INT_MAX` (and odd elements do exist),
`minOdd` finishes at `INT_MAX`, the odd branch is skipped, and the program
computes exactly what the even branch alone would — the odd class
contributes no candidate. -/
theorem C10_sentinel_presence (a : List Int)
    (hodd : ∀ x ∈ a, isOddInt x = true → x = INT_MAX)
    (_hex : ∃ x ∈ a, isOddInt x = true) :
    (computeBounds a).minOdd = INT_MAX ∧ solve a = solveEvenBranchOnly a := by
  have hconst : ∀ x ∈ oddElems a, x = INT_MAX := by
    intro x hx
    exact hodd x (mem_of_mem_oddElems hx) (List.mem_filter.mp hx).2
  have hminO : (computeBounds a).minOdd = INT_MAX := by
    rw [computeBounds_eq]
    exact foldl_min_const (oddElems a) INT_MAX hconst
  refine ⟨hminO, ?_⟩
  rw [solve_def, if_neg (by simp [hminO])]
  rfl

/-- Claim C10 (witness): on `[2147483646, 2147483647]` the only odd
element is `INT_MAX`, the odd guard fails, and the program prints the even
branch's value (here 1). -/
theorem C10_witness :
    (computeBounds [2147483646, 2147483647]).minOdd = INT_MAX ∧
      solve [2147483646, 2147483647] = solveEvenBranchOnly [2147483646, 2147483647] :=
  C10_sentinel_presence [2147483646, 2147483647] (by decide) (by decide)

theorem min?_elim_eq_foldl (o : Int) (os : List Int) :
    os.min?.elim o (min o) = os.foldl min o := by
  cases os with
  | nil => rfl
  | cons y ys =>
      show min o (ys.foldl min y) = (y :: ys).foldl min o
      rw [List.foldl_cons]
      exact (foldl_min_swap ys o y).symm

theorem max?_elim_eq_foldl (o : Int) (os : List Int) :
    os.max?.elim o (max o) = os.foldl max o := by
  cases os with
  | nil => rfl
  | cons y ys =>
      show max o (ys.foldl max y) = (y :: ys).foldl max o
      rw [List.foldl_cons]
      exact (foldl_max_swap ys o y).symm

theorem classes_nonempty (a : List Int) (hne : a ≠ []) :
    evenElems a ≠ [] ∨ oddElems a ≠ [] := by
  cases a with
  | nil => exact absurd rfl hne
  | cons y ys =>
      rcases classes_cover (y :: ys) y (List.mem_cons_self y ys) with h | h
      · left
        intro hnil
        rw [hnil] at h
        cases h
      · right
        intro hnil
        rw [hnil] at h
        cases h

/-- Claim C1 (amended): for every non-empty input of `int` values other
than `INT_MAX`, the printed answer is the minimum, over the non-empty
parity classes, of the number of elements lying outside that class's own
`[min, max]` value range — opposite-parity elements inside that range are
kept, so the candidate is not in general `n` minus the class size. -/
theorem C1_outside_range_amended (a : List Int) (hne : a ≠ [])
    (hrange : ∀ x ∈ a, INT_MIN ≤ x ∧ x < INT_MAX) :
    (specCandidates a).min? = some (solve a) := by
  rw [solve_def]
  rcases hEcase : evenElems a with _ | ⟨e, es⟩ <;>
    rcases hOcase : oddElems a with _ | ⟨o, os⟩
  · rcases classes_nonempty a hne with h | h
    · exact absurd hEcase h
    · exact absurd hOcase h
  · have ho_mem : o ∈ a :=
      mem_of_mem_oddElems (by rw [hOcase]; exact List.mem_cons_self o os)
    have hrange_o := hrange o ho_mem
    have hminE : (computeBounds a).minEven = INT_MAX := by
      rw [computeBounds_eq, hEcase]
      rfl
    have hspecMin := foldl_min_sentinel_spec o os hrange_o.2
    have hspecMax := foldl_max_sentinel_spec o os hrange_o.1
    have hminO : (computeBounds a).minOdd = os.foldl min o := by
      rw [computeBounds_eq, hOcase]
      exact hspecMin.1
    have hmaxO : (computeBounds a).maxOdd = os.foldl max o := by
      rw [computeBounds_eq, hOcase]
      exact hspecMax
    have hguardO : (computeBounds a).minOdd ≠ INT_MAX := by
      rw [computeBounds_eq, hOcase]
      exact hspecMin.2
    have hle := countOutside_le_length a (computeBounds a).minOdd (computeBounds a).maxOdd
    rw [if_pos hguardO, if_neg (by simp [hminE]), min_eq_right hle, hminO, hmaxO]
    simp [specCandidates, specCandidate, hEcase, hOcase, min?_elim_eq_foldl, max?_elim_eq_foldl]
  · have he_mem : e ∈ a :=
      mem_of_mem_evenElems (by rw [hEcase]; exact List.mem_cons_self e es)
    have hrange_e := hrange e he_mem
    have hminO : (computeBounds a).minOdd = INT_MAX := by
      rw [computeBounds_eq, hOcase]
      rfl
    have hspecMin := foldl_min_sentinel_spec e es hrange_e.2
    have hspecMax := foldl_max_sentinel_spec e es hrange_e.1
    have hminE : (computeBounds a).minEven = es.foldl min e := by
      rw [computeBounds_eq, hEcase]
      exact hspecMin.1
    have hmaxE : (computeBounds a).maxEven = es.foldl max e := by
      rw [computeBounds_eq, hEcase]
      exact hspecMax
    have hguardE : (computeBounds a).minEven ≠ INT_MAX := by
      rw [computeBounds_eq, hEcase]
      exact hspecMin.2
    have hle := countOutside_le_length a (computeBounds a).minEven (computeBounds a).maxEven
    rw [if_neg (by simp [hminO]), if_pos hguardE, min_eq_right hle, hminE, hmaxE]
    simp [specCandidates, specCandidate, hEcase, hOcase, min?_elim_eq_foldl, max?_elim_eq_foldl]
  · have he_mem : e ∈ a :=
      mem_of_mem_evenElems (by rw [hEcase]; exact List.mem_cons_self e es)
    have ho_mem : o ∈ a :=
      mem_of_mem_oddElems (by rw [hOcase]; exact List.mem_cons_self o os)
    have hrange_e := hrange e he_mem
    have hrange_o := hrange o ho_mem
    have hspecMinE := foldl_min_sentinel_spec e es hrange_e.2
    have hspecMaxE := foldl_max_sentinel_spec e es hrange_e.1
    have hspecMinO := foldl_min_sentinel_spec o os hrange_o.2
    have hspecMaxO := foldl_max_sentinel_spec o os hrange_o.1
    have hminE : (computeBounds a).minEven = es.foldl min e := by
      rw [computeBounds_eq, hEcase]
      exact hspecMinE.1
    have hmaxE : (computeBounds a).maxEven = es.foldl max e := by
      rw [computeBounds_eq, hEcase]
      exact hspecMaxE
    have hminO : (computeBounds a).minOdd = os.foldl min o := by
      rw [computeBounds_eq, hOcase]
      exact hspecMinO.1
    have hmaxO : (computeBounds a).maxOdd = os.foldl max o := by
      rw [computeBounds_eq, hOcase]
      exact hspecMaxO
    have hguardE : (computeBounds a).minEven ≠ INT_MAX := by
      rw [computeBounds_eq, hEcase]
      exact hspecMinE.2
    have hguardO : (computeBounds a).minOdd ≠ INT_MAX := by
      rw [computeBounds_eq, hOcase]
      exact hspecMinO.2
    have hleE := countOutside_le_length a (computeBounds a).minEven (computeBounds a).maxEven
    rw [if_pos hguardO, if_pos hguardE, min_eq_right hleE, hminE, hmaxE, hminO, hmaxO]
    simp [specCandidates, specCandidate, hEcase, hOcase, min?_elim_eq_foldl, max?_elim_eq_foldl]

/-- Claim C1 (witness): the amended claim at `[1,2,3]`, where the only
candidate minimum is 0 from the odd class. -/
theorem C1_witness : (specCandidates [1, 2, 3]).min? = some (solve [1, 2, 3]) :=
  C1_outside_range_amended [1, 2, 3] (by decide) (by decide)

end Contest2110A
